import Mathlib

/-!
Verification of the data-cleaning and lead-scoring core of the
leads-generator API (Go sources `api/internal/service/validation.go` and
`api/internal/service/scoring/scoring.go`).

Go strings are modelled as `List Char` (one element per rune).  Go maps are
modelled as association lists carrying one concrete iteration order; a run of
the program corresponds to one such order.  External libraries
(`net/url`, `phonenumbers`, `idna`, DNS, HTTP) are modelled as oracle
functions supplied through the `DataProcessor` structure, mirroring how the
Go code injects `DNSResolver` and `HTTPClient`; only the repository's own
control flow is written out.
-/

namespace LeadsGen

/-- Go strings as rune lists. -/
abbrev GoStr := List Char

/-- Conversion from a Lean string literal to the rune-list model. -/
def gs (s : String) : GoStr := s.data

/-- `unicode.IsSpace` restricted to the ASCII whitespace runes
(space, TAB, LF, VT, FF, CR), which is how it behaves on ASCII input. -/
def goIsSpace (c : Char) : Bool :=
  c.toNat = 32 || c.toNat = 9 || c.toNat = 10 || c.toNat = 11 ||
  c.toNat = 12 || c.toNat = 13

/-- `unicode.ToLower` on ASCII: maps `A`–`Z` to `a`–`z`, fixes the rest. -/
def goCharToLower (c : Char) : Char :=
  if 65 ≤ c.toNat ∧ c.toNat ≤ 90 then Char.ofNat (c.toNat + 32) else c

/-- `strings.ToLower`. -/
def goToLower (s : GoStr) : GoStr := s.map goCharToLower

/-- `strings.TrimSpace`. -/
def trimSpace (s : GoStr) : GoStr :=
  ((s.dropWhile goIsSpace).reverse.dropWhile goIsSpace).reverse

/-- `len(s)` on a Go string counts bytes; modelled as the UTF-8 size. -/
def utf8Len (s : GoStr) : Nat := (s.map (fun c => c.utf8Size)).sum

/-- `strings.Contains hay needle`. -/
def goContains (hay needle : GoStr) : Bool := decide (needle <:+: hay)

namespace scoring

/-- `scoring.LeadFeatures`.  `Socials` is the Go map `map[string]string`
given as an association list in one iteration order (keys pairwise
distinct in any state a Go map can reach). -/
structure LeadFeatures where
  Emails : List GoStr
  Phones : List GoStr
  Socials : List (GoStr × GoStr)
  HasHTTPS : Bool
  HasContactPage : Bool
  HasAboutPage : Bool
  HasContactForm : Bool
  Address : GoStr
  Website : GoStr

/-- `scoring.ScoreResult`; the `Breakdown` map has the four fixed category
keys, kept here in the insertion order of `ComputeScore`. -/
structure ScoreResult where
  Total : Int
  Breakdown : List (GoStr × Int)
deriving DecidableEq

/-- The scoring package's own `min` helper. -/
def goMinInt (a b : Int) : Int := if a < b then a else b

/-- `scoring.hasValue`: some entry is non-blank after trimming. -/
def hasValue (values : List GoStr) : Bool :=
  values.any (fun v => trimSpace v ≠ [])

/-- Delimiters used by `scoring.splitSocialValue`'s `FieldsFunc`. -/
def isSocialDelim (c : Char) : Bool :=
  c.toNat = 44 || c.toNat = 59 || c.toNat = 124 ||
  c.toNat = 32 || c.toNat = 10 || c.toNat = 9 || c.toNat = 13

/-- `scoring.splitSocialValue`: `strings.FieldsFunc` keeps exactly the
non-empty maximal runs between delimiters. -/
def splitSocialValue (raw : GoStr) : List GoStr :=
  if trimSpace raw = [] then []
  else (List.splitOnP isSocialDelim raw).filter (fun t => t ≠ [])

/-- `scoring.countSocialLinks`: counts every non-empty token of every
platform's payload (the `[]` case covers the `len(socials) == 0` early
return). -/
def countSocialLinks : List (GoStr × GoStr) → Int
  | [] => 0
  | kv :: rest =>
      (((splitSocialValue kv.2).filter (fun t => t ≠ [])).length : Int) +
        countSocialLinks rest

/-- The key normalization of `scoring.normalizeSocialKeys`:
`strings.ToLower(strings.TrimSpace(key))`. -/
def normKey (kv : GoStr × GoStr) : GoStr := goToLower (trimSpace kv.1)

/-- One lookup in the map built by `scoring.normalizeSocialKeys`: entries
whose trimmed lower-cased key is empty are skipped, later entries overwrite
earlier ones (Go map assignment), and a missing key reads as `""`. -/
def normalizeSocialKeysGet (socials : List (GoStr × GoStr)) (q : GoStr) : GoStr :=
  match (socials.filter (fun kv => normKey kv ≠ [] ∧ normKey kv = q)).getLast? with
  | some kv => trimSpace kv.2
  | none => []

/-- `scoring.scoreContactCompleteness` (the sequential `score += x`
accumulations written as one sum). -/
def scoreContactCompleteness (input : LeadFeatures) : Int :=
  let score : Int :=
    (if hasValue input.Emails then 10 else 0) +
    (if hasValue input.Phones then 10 else 0) +
    goMinInt (countSocialLinks input.Socials) 10
  if score > 30 then 30 else score

/-- `scoring.hasHTTPS`. -/
def hasHTTPSF (input : LeadFeatures) : Bool :=
  if input.HasHTTPS then true
  else (gs "https://").isPrefixOf (goToLower (trimSpace input.Website))

/-- `scoring.scoreWebsiteQuality`. -/
def scoreWebsiteQuality (input : LeadFeatures) : Int :=
  let score : Int :=
    (if hasHTTPSF input then 10 else 0) +
    (if input.HasContactPage then 10 else 0) +
    (if input.HasAboutPage then 5 else 0) +
    (if input.HasContactForm then 5 else 0)
  if score > 30 then 30 else score

/-- `scoring.scoreSocialPresence`. -/
def scoreSocialPresence (input : LeadFeatures) : Int :=
  if input.Socials.length = 0 then 0
  else
    let score : Int :=
      (if normalizeSocialKeysGet input.Socials (gs "linkedin") ≠ [] then 5 else 0) +
      (if normalizeSocialKeysGet input.Socials (gs "instagram") ≠ [] then 5 else 0) +
      (if normalizeSocialKeysGet input.Socials (gs "facebook") ≠ [] then 5 else 0) +
      (if normalizeSocialKeysGet input.Socials (gs "youtube") ≠ [] ∨
          normalizeSocialKeysGet input.Socials (gs "tiktok") ≠ [] then 5 else 0)
    if score > 20 then 20 else score

/-- `scoring.freeHostingDomains`. -/
def freeHostingDomains : List GoStr :=
  [gs "wordpress.com", gs "blogspot.com", gs "wixsite.com", gs "weebly.com",
   gs "squarespace.com", gs "medium.com", gs "substack.com",
   gs "godaddysites.com", gs "notion.site", gs "googlepages.com"]

/-- `scoring.extractDomain`; `parseHost` is the oracle standing for
`url.Parse(...).Host` of the `net/url` library (`none` = parse error). -/
def extractDomain (parseHost : GoStr → Option GoStr) (raw : GoStr) : GoStr :=
  let raw := trimSpace raw
  if raw = [] then []
  else
    let lowered := goToLower raw
    let lowered :=
      if goContains lowered (gs "://") then lowered else gs "https://" ++ lowered
    match parseHost lowered with
    | none => []
    | some h =>
        let host := trimSpace (goToLower h)
        if (gs "www.").isPrefixOf host then host.drop 4 else host

/-- `scoring.highQualityDomain`. -/
def highQualityDomain (parseHost : GoStr → Option GoStr) (raw : GoStr) : Bool :=
  let domain := extractDomain parseHost raw
  if domain = [] then false
  else if freeHostingDomains.any
      (fun bad => domain = bad ∨ ('.' :: bad).isSuffixOf domain) then false
  else domain.count '.' ≥ 1

/-- `scoring.hasCompleteAddress` (`unicode.IsLetter`/`IsDigit` modelled by
their ASCII restrictions `Char.isAlpha`/`Char.isDigit`). -/
def hasCompleteAddress (raw : GoStr) : Bool :=
  let addr := trimSpace raw
  if utf8Len addr < 10 then false
  else addr.any Char.isAlpha && addr.any Char.isDigit && addr.count ',' ≥ 1

/-- `scoring.scoreBusinessProfile`. -/
def scoreBusinessProfile (parseHost : GoStr → Option GoStr)
    (input : LeadFeatures) : Int :=
  let score : Int :=
    (if hasCompleteAddress input.Address then 10 else 0) +
    (if highQualityDomain parseHost input.Website then 10 else 0)
  if score > 20 then 20 else score

/-- `scoring.ComputeScore`: the breakdown map with its four fixed keys, and
the total accumulated over its values. -/
def ComputeScore (parseHost : GoStr → Option GoStr)
    (input : LeadFeatures) : ScoreResult :=
  let breakdown : List (GoStr × Int) :=
    [(gs "contact_completeness", scoreContactCompleteness input),
     (gs "website_quality", scoreWebsiteQuality input),
     (gs "social_presence", scoreSocialPresence input),
     (gs "business_profile", scoreBusinessProfile parseHost input)]
  { Total := breakdown.foldl (fun acc kv => acc + kv.2) 0
    Breakdown := breakdown }

/-- Modelled from the spec: the number of *distinct* social-link tokens
across all platforms, as the claim's formula reads it (the code, by
contrast, counts every occurrence). -/
def specDistinctTokenCount (socials : List (GoStr × GoStr)) : Int :=
  (((socials.map (fun kv => splitSocialValue kv.2)).flatten).dedup.length : Int)

/-- The `LeadFeatures` input separating distinct-token counting from the
code's multiplicity counting: one platform whose stored value holds the
same token twice. -/
def c6Input : LeadFeatures :=
  { Emails := [], Phones := [], Socials := [(gs "linkedin", gs "a a")],
    HasHTTPS := false, HasContactPage := false, HasAboutPage := false,
    HasContactForm := false, Address := [], Website := [] }

/-- No two map entries have raw keys that normalize to the same non-empty
key. -/
def DistinctNormKeys (l : List (GoStr × GoStr)) : Prop :=
  l.Pairwise (fun a b => normKey a = [] ∨ normKey b = [] ∨ normKey a ≠ normKey b)

instance (l : List (GoStr × GoStr)) : Decidable (DistinctNormKeys l) :=
  inferInstanceAs (Decidable (List.Pairwise _ l))

/-- The `LeadFeatures` used to exhibit order sensitivity: only `Socials`
varies. -/
def c9Input (socials : List (GoStr × GoStr)) : LeadFeatures :=
  { Emails := [], Phones := [], Socials := socials, HasHTTPS := false,
    HasContactPage := false, HasAboutPage := false, HasContactForm := false,
    Address := [], Website := [] }

/-- Two enumeration orders of the same two map entries, whose raw keys
`linkedin` and `LINKEDIN` both normalize to `linkedin`. -/
def c9SocialsA : List (GoStr × GoStr) :=
  [(gs "linkedin", []), (gs "LINKEDIN", gs "https://linkedin.com/acme")]

/-- The same entries enumerated in the opposite order. -/
def c9SocialsB : List (GoStr × GoStr) :=
  [(gs "LINKEDIN", gs "https://linkedin.com/acme"), (gs "linkedin", [])]

end scoring

/-! ### `api/internal/service/validation.go` -/

/-- Characters allowed in the local part of `emailPattern`
(`[a-z0-9._%+\-']`). -/
def isLocalChar (c : Char) : Bool :=
  (97 ≤ c.toNat && c.toNat ≤ 122) || (48 ≤ c.toNat && c.toNat ≤ 57) ||
  c.toNat = 46 || c.toNat = 95 || c.toNat = 37 || c.toNat = 43 ||
  c.toNat = 45 || c.toNat = 39

/-- Characters allowed in the domain part of `emailPattern`
(`[a-z0-9.-]`). -/
def isEmailDomChar (c : Char) : Bool :=
  (97 ≤ c.toNat && c.toNat ≤ 122) || (48 ≤ c.toNat && c.toNat ≤ 57) ||
  c.toNat = 46 || c.toNat = 45

/-- A lower-case ASCII letter (`[a-z]`). -/
def isLowerAlpha (c : Char) : Bool := 97 ≤ c.toNat && c.toNat ≤ 122

/-- Split a list at the first occurrence of `sep` (`strings.SplitN _ _ 2`
when the separator occurs; `none` when it does not). -/
def splitFirst (sep : Char) : GoStr → Option (GoStr × GoStr)
  | [] => none
  | c :: rest =>
      if c = sep then some ([], rest)
      else
        match splitFirst sep rest with
        | some (a, b) => some (c :: a, b)
        | none => none

/-- The regex `^[a-z0-9.-]+\.[a-z]{2,}$`.  Because `[a-z]` is dot-free, the
matched final `\.` must be the last dot of the string, so the TLD is the
segment after the last dot and everything before that dot is the
`[a-z0-9.-]+` part, which must be non-empty. -/
def emailDomainMatch (d : GoStr) : Bool :=
  d.all isEmailDomChar &&
    (let parts := d.splitOn '.'
     let tld := parts.getLastD []
     decide (parts.length ≥ 2) && decide (tld.length ≥ 2) &&
       tld.all isLowerAlpha &&
       decide (List.intercalate ['.'] parts.dropLast ≠ []))

/-- `emailPattern.MatchString`, for the anchored regex
`^[a-z0-9._%+\-']+@[a-z0-9.-]+\.[a-z]{2,}$` (both character classes exclude
`@`, so the string must contain exactly one `@`). -/
def emailPatternMatch (s : GoStr) : Bool :=
  match splitFirst '@' s with
  | none => false
  | some (loc, dom) => loc ≠ [] && loc.all isLocalChar && emailDomainMatch dom

/-- `isDomainValid`. -/
def isDomainValid (domain : GoStr) : Bool :=
  if domain.count '.' = 0 then false
  else (domain.splitOn '.').all
    (fun part => part ≠ [] && part.head? ≠ some '-' && part.getLast? ≠ some '-')

/-- `HTTPClient` dependency: `newRequestOk` models whether
`http.NewRequestWithContext` succeeds for the target (it depends only on
the target once the method is a fixed valid one), and `send method target`
models `Do` (`none` = transport error, `some st` = response status). -/
structure HTTPClient where
  newRequestOk : GoStr → Bool
  send : GoStr → GoStr → Option Nat

/-- The outcome of `sanitizeURL`'s call into `net/url`: `host` is `u.Host`,
`hostname` is `u.Hostname()`, and `rendered` is `u.String()` after
`stripTracking` has removed the `utm_`-prefixed query parameters (URL
parsing and re-rendering belong to the `net/url` library, so they are kept
oracular; the repository's own checks around them are explicit below). -/
structure GoURL where
  host : GoStr
  hostname : GoStr
  rendered : GoStr
deriving DecidableEq

/-- `DataProcessor` with its injected dependencies.  `dnsResolver` models
`LookupMX` succeeding with at least one record; `idnaToASCII` models
`idna.Lookup.ToASCII` (`none` = error); `phoneNormalize` models the
`phonenumbers` pipeline `Parse`/`IsPossibleNumber`/`IsValidNumber`/`Format
E164` (`none` = any of them rejecting). -/
structure DataProcessor where
  DefaultRegion : GoStr
  dnsResolver : Option (GoStr → Bool)
  httpClient : Option HTTPClient
  idnaToASCII : GoStr → Option GoStr
  parseURL : GoStr → Option GoURL
  phoneNormalize : GoStr → GoStr → Option GoStr

/-- `hasMXRecord` (the 3s timeout is folded into the resolver oracle). -/
def hasMXRecord (p : DataProcessor) (domain : GoStr) : Bool :=
  match p.dnsResolver with
  | none => false
  | some resolve => resolve domain

/-- The mutable state of one `cleanEmails` invocation, plus an
instrumentation field `mxLog` recording, in order, every domain for which
`hasMXRecord` was actually invoked. -/
structure CEState where
  seen : List GoStr
  domainCache : List (GoStr × Bool)
  valid : List GoStr
  mxLog : List GoStr

/-- The accept phase at the bottom of the `cleanEmails` loop body: the
`seen` dedup guard followed by the append. -/
def ceAccept (st : CEState) (email : GoStr) : CEState :=
  if email ∈ st.seen then st
  else { st with seen := email :: st.seen, valid := st.valid ++ [email] }

/-- The domain of a normalized email: `strings.SplitN(email, "@", 2)[1]`
(an email that passed `emailPattern` always has the `@`; the `[]` default
is unreachable there). -/
def emailDomainOf (email : GoStr) : GoStr :=
  ((splitFirst '@' email).map Prod.snd).getD []

/-- One iteration of the `cleanEmails` loop body on candidate `raw`.
The Go map writes become prepends on the association lists. -/
def cleanEmailsStep (p : DataProcessor) (st : CEState) (raw : GoStr) : CEState :=
  let email := goToLower (trimSpace raw)
  if email = [] ∨ ¬ emailPatternMatch email then st
  else
    let domain := emailDomainOf email
    if ¬ isDomainValid domain then st
    else
      match p.idnaToASCII domain with
      | none => st
      | some asciiDomain =>
          if asciiDomain = [] then st
          else
            match List.lookup asciiDomain st.domainCache with
            | some ok => if ok then ceAccept st email else st
            | none =>
                let hasMX := hasMXRecord p asciiDomain
                let st' := { st with
                  domainCache := (asciiDomain, hasMX) :: st.domainCache,
                  mxLog := st.mxLog ++ [asciiDomain] }
                if hasMX then ceAccept st' email else st'

/-- The `cleanEmails` loop over all candidates. -/
def cleanEmailsLoop (p : DataProcessor) : List GoStr → CEState → CEState
  | [], st => st
  | raw :: rest, st => cleanEmailsLoop p rest (cleanEmailsStep p st raw)

/-- Running the `cleanEmails` loop from the empty state. -/
def cleanEmailsFull (p : DataProcessor) (emails : List GoStr) : CEState :=
  cleanEmailsLoop p emails ⟨[], [], [], []⟩

/-- `cleanEmails` (Go's `nil` results are modelled by `[]`, so the two
early returns collapse into the plain loop result). -/
def cleanEmails (p : DataProcessor) (emails : List GoStr) : List GoStr :=
  if emails.length = 0 then []
  else (cleanEmailsFull p emails).valid

/-- `urlResolves`, instrumented with the number of `Do` calls issued.
Note the source's fall-through: after the HEAD branch, the GET retry runs
both when HEAD returned 405 and when `Do` itself returned an error. -/
def urlResolvesT (p : DataProcessor) (target : GoStr) : Bool × Nat :=
  match p.httpClient with
  | none => (false, 0)
  | some c =>
    if ¬ c.newRequestOk target then (false, 0)
    else
      let early : Option Bool :=
        match c.send (gs "HEAD") target with
        | some st =>
            if st = 200 then some true
            else if st ≠ 405 then some false
            else none
        | none => none
      match early with
      | some b => (b, 1)
      | none =>
          if ¬ c.newRequestOk target then (false, 1)
          else
            match c.send (gs "GET") target with
            | some st2 => (decide (st2 = 200), 2)
            | none => (false, 2)

/-- `urlResolves` proper. -/
def urlResolves (p : DataProcessor) (target : GoStr) : Bool :=
  (urlResolvesT p target).1

/-- `allowedSocialDomains` in declaration order (a host can match at most
one entry, so the Go map's arbitrary iteration order is immaterial). -/
def allowedSocialDomains : List (GoStr × GoStr) :=
  [(gs "linkedin.com", gs "linkedin"), (gs "facebook.com", gs "facebook"),
   (gs "instagram.com", gs "instagram"), (gs "youtube.com", gs "youtube"),
   (gs "youtu.be", gs "youtube"), (gs "tiktok.com", gs "tiktok")]

/-- The host normalization at the top of `hostMatchesAllowed`:
`strings.ToLower(strings.Trim(strings.TrimSpace(host), "."))`. -/
def cleanHost (host : GoStr) : GoStr :=
  goToLower
    (((trimSpace host).dropWhile (· = '.')).reverse.dropWhile (· = '.')).reverse

/-- `hostMatchesAllowed` (`(platform, true)` becomes `some platform`). -/
def hostMatchesAllowed (host : GoStr) : Option GoStr :=
  let host := cleanHost host
  if host = [] then none
  else
    (allowedSocialDomains.find?
      (fun e => host = e.1 ∨ ('.' :: e.1).isSuffixOf host)).map Prod.snd

/-- `sanitizeURL`: trim, default the scheme, parse, require a host (forcing
`u.Scheme = "https"` only affects the oracle-rendered string). -/
def sanitizeURL (p : DataProcessor) (raw : GoStr) : Option GoURL :=
  let raw := trimSpace raw
  if raw = [] then none
  else
    let withScheme :=
      if goContains raw (gs "://") then raw else gs "https://" ++ raw
    match p.parseURL withScheme with
    | none => none
    | some u => if u.host = [] then none else some u

/-- `cleanSocialLink`, instrumented with the number of HTTP requests the
liveness probe issued. -/
def cleanSocialLinkT (p : DataProcessor) (platform raw : GoStr) :
    Option GoStr × Nat :=
  match sanitizeURL p raw with
  | none => (none, 0)
  | some u =>
      match hostMatchesAllowed u.hostname with
      | none => (none, 0)
      | some hostPlatform =>
          if hostPlatform ≠ platform then (none, 0)
          else
            let r := urlResolvesT p u.rendered
            if ¬ r.1 then (none, r.2) else (some u.rendered, r.2)

/-- `cleanSocialLink` proper. -/
def cleanSocialLink (p : DataProcessor) (platform raw : GoStr) : Option GoStr :=
  (cleanSocialLinkT p platform raw).1

/-- `canonicalSocialKey`. -/
def canonicalSocialKey (key : GoStr) : GoStr :=
  let k := goToLower (trimSpace key)
  if k = gs "linkedin" ∨ k = gs "linkedin_url" then gs "linkedin"
  else if k = gs "facebook" ∨ k = gs "facebook_url" then gs "facebook"
  else if k = gs "instagram" ∨ k = gs "instagram_url" ∨ k = gs "ig" then
    gs "instagram"
  else if k = gs "youtube" ∨ k = gs "youtube_url" ∨ k = gs "youtu" ∨
      k = gs "youtu_be" then gs "youtube"
  else if k = gs "tiktok" ∨ k = gs "tiktok_url" then gs "tiktok"
  else []

/-- `SocialLinks`. -/
structure SocialLinks where
  LinkedIn : GoStr
  Facebook : GoStr
  Instagram : GoStr
  Youtube : GoStr
  Tiktok : GoStr
deriving DecidableEq

/-- The zero `SocialLinks` value. -/
def SocialLinks.empty : SocialLinks := ⟨[], [], [], [], []⟩

/-- `(*SocialLinks).set`. -/
def SocialLinks.set (links : SocialLinks) (platform value : GoStr) : SocialLinks :=
  if platform = gs "linkedin" then { links with LinkedIn := value }
  else if platform = gs "facebook" then { links with Facebook := value }
  else if platform = gs "instagram" then { links with Instagram := value }
  else if platform = gs "youtube" then { links with Youtube := value }
  else if platform = gs "tiktok" then { links with Tiktok := value }
  else links

/-- The first candidate `cleanSocialLink` accepts (the inner
`for ... break` of `validateSocials`). -/
def firstCleanCandidate (p : DataProcessor) (platform : GoStr) :
    List GoStr → Option GoStr
  | [] => none
  | raw :: rest =>
      match cleanSocialLink p platform raw with
      | some s => some s
      | none => firstCleanCandidate p platform rest

/-- The `validateSocials` loop over the map entries, with the `used` set. -/
def validateSocialsLoop (p : DataProcessor) :
    List (GoStr × List GoStr) → List GoStr → SocialLinks → SocialLinks
  | [], _, acc => acc
  | (key, candidates) :: rest, used, acc =>
      let platform := canonicalSocialKey key
      if platform = [] ∨ candidates.length = 0 then
        validateSocialsLoop p rest used acc
      else if platform ∈ used then validateSocialsLoop p rest used acc
      else
        match firstCleanCandidate p platform candidates with
        | some s =>
            validateSocialsLoop p rest (platform :: used) (acc.set platform s)
        | none => validateSocialsLoop p rest used acc

/-- `validateSocials` (the map given as an association list in one
iteration order). -/
def validateSocials (p : DataProcessor)
    (socials : List (GoStr × List GoStr)) : SocialLinks :=
  if socials.length = 0 then SocialLinks.empty
  else validateSocialsLoop p socials [] SocialLinks.empty

/-- `sanitizeContactForm`. -/
def sanitizeContactForm (p : DataProcessor) (raw : GoStr) : GoStr :=
  match sanitizeURL p raw with
  | none => []
  | some u => u.rendered

/-- `normalizePhone`. -/
def normalizePhone (p : DataProcessor) (raw region : GoStr) : GoStr :=
  let raw := trimSpace raw
  if raw = [] then []
  else
    let region := if region = [] then gs "ID" else region
    match p.phoneNormalize raw region with
    | none => []
    | some e164 => e164

/-- The dedup loop of `normalizePhones`. -/
def normalizePhonesLoop (p : DataProcessor) :
    List GoStr → List GoStr → List GoStr → List GoStr
  | [], _, valid => valid
  | raw :: rest, seen, valid =>
      let normalized := normalizePhone p raw p.DefaultRegion
      if normalized = [] then normalizePhonesLoop p rest seen valid
      else if normalized ∈ seen then normalizePhonesLoop p rest seen valid
      else normalizePhonesLoop p rest (normalized :: seen) (valid ++ [normalized])

/-- `normalizePhones`. -/
def normalizePhones (p : DataProcessor) (primary : GoStr)
    (secondary : List GoStr) : List GoStr :=
  let candidates :=
    (if trimSpace primary ≠ [] then [trimSpace primary] else []) ++ secondary
  normalizePhonesLoop p candidates [] []

/-- `addressScore`: `strings.FieldsFunc` on `,`/`;` keeps the non-empty
segments; `len([]rune addr)` is the rune count. -/
def addressScore (addr : GoStr) : Int :=
  (((List.splitOnP (fun r => r = ',' ∨ r = ';') addr).filter
    (fun s => s ≠ [])).length : Int) * 1000 + (addr.length : Int)

/-- The `selectBestAddress` scan, carrying `best` and `bestScore`; a
candidate replaces the current best only on a strictly greater score. -/
def selectBestAddressLoop : List GoStr → GoStr → Int → GoStr × Int
  | [], best, bestScore => (best, bestScore)
  | raw :: rest, best, bestScore =>
      if trimSpace raw = [] then selectBestAddressLoop rest best bestScore
      else if addressScore (trimSpace raw) > bestScore then
        selectBestAddressLoop rest (trimSpace raw) (addressScore (trimSpace raw))
      else selectBestAddressLoop rest best bestScore

/-- `selectBestAddress`. -/
def selectBestAddress (addresses : List GoStr) : GoStr :=
  (selectBestAddressLoop addresses [] 0).1

/-- `RawEnrichedData`. -/
structure RawEnrichedData where
  CompanyID : GoStr
  Emails : List GoStr
  PrimaryPhone : GoStr
  SecondaryPhones : List GoStr
  SocialLinks : List (GoStr × List GoStr)
  Addresses : List GoStr
  ContactFormURL : GoStr

/-- `CleanedData`. -/
structure CleanedData where
  CompanyID : GoStr
  Emails : List GoStr
  Phones : List GoStr
  Socials : SocialLinks
  Address : GoStr
  ContactFormURL : GoStr
deriving DecidableEq

/-- The zero `CleanedData` value returned alongside the error. -/
def CleanedData.zero : CleanedData := ⟨[], [], [], SocialLinks.empty, [], []⟩

/-- `Process`: the Go pair `(CleanedData, error)`, with `none` standing for
a `nil` error. -/
def Process (p : DataProcessor) (input : RawEnrichedData) :
    CleanedData × Option GoStr :=
  let companyID := trimSpace input.CompanyID
  if companyID = [] then (CleanedData.zero, some (gs "company_id is required"))
  else
    ({ CompanyID := companyID
       Emails := cleanEmails p input.Emails
       Phones := normalizePhones p input.PrimaryPhone input.SecondaryPhones
       Socials := validateSocials p input.SocialLinks
       Address := selectBestAddress input.Addresses
       ContactFormURL := sanitizeContactForm p input.ContactFormURL }, none)

/-- The trimmed, non-blank address candidates, in order. -/
def candsOf (l : List GoStr) : List GoStr :=
  (l.map trimSpace).filter (fun a => a ≠ [])

/-! ### Concrete dependency instances used by witnesses and
counterexamples -/

/-- A processor whose injected dependencies all fail. -/
def inertProcessor : DataProcessor :=
  { DefaultRegion := gs "US", dnsResolver := none, httpClient := none,
    idnaToASCII := fun _ => none, parseURL := fun _ => none,
    phoneNormalize := fun _ _ => none }

/-- A client answering HEAD with a transport error and GET with 200. -/
def headErrClient : HTTPClient :=
  { newRequestOk := fun _ => true,
    send := fun m _ => if m = gs "HEAD" then none else some 200 }

/-- `inertProcessor` equipped with `headErrClient`. -/
def headErrProcessor : DataProcessor :=
  { inertProcessor with httpClient := some headErrClient }

/-- A client answering HEAD with 405 and GET with 200. -/
def head405Client : HTTPClient :=
  { newRequestOk := fun _ => true,
    send := fun m _ => if m = gs "HEAD" then some 405 else some 200 }

/-- `inertProcessor` equipped with `head405Client`. -/
def head405Processor : DataProcessor :=
  { inertProcessor with httpClient := some head405Client }

/-- A client answering HEAD with 500 and GET with 200. -/
def head500Client : HTTPClient :=
  { newRequestOk := fun _ => true,
    send := fun m _ => if m = gs "HEAD" then some 500 else some 200 }

/-- `inertProcessor` equipped with `head500Client`. -/
def head500Processor : DataProcessor :=
  { inertProcessor with httpClient := some head500Client }

/-- A processor whose URL parser always reports host `example.com` and
whose HTTP client would answer 200 to everything, to show that the
allow-list rejects before any request is sent. -/
def exampleHostProcessor : DataProcessor :=
  { inertProcessor with
    httpClient := some ⟨fun _ => true, fun _ _ => some 200⟩,
    parseURL := fun _ =>
      some ⟨gs "example.com", gs "example.com", gs "https://example.com/x"⟩ }

/-- A processor whose DNS resolver always finds MX records and whose
punycode conversion is the identity, for exercising `cleanEmails`. -/
def emailProcessor : DataProcessor :=
  { DefaultRegion := gs "US", dnsResolver := some (fun _ => true),
    httpClient := none, idnaToASCII := fun d => some d,
    parseURL := fun _ => none, phoneNormalize := fun _ _ => none }

/-- The candidates validated by `Acceptable` about one processor: the
email passed the syntax pattern and the structural domain check, and its
domain converts to a non-empty ASCII form whose MX lookup succeeds. -/
def Acceptable (p : DataProcessor) (v : GoStr) : Prop :=
  emailPatternMatch v = true ∧ isDomainValid (emailDomainOf v) = true ∧
  ∃ a, p.idnaToASCII (emailDomainOf v) = some a ∧ a ≠ [] ∧
    hasMXRecord p a = true

/-- The invariant the `cleanEmails` loop maintains: accepted emails are
pairwise distinct, `seen` and `valid` hold the same set, every accepted
email passed all checks and has its ASCII domain cached `true`, every
cache entry records the resolver's answer for its domain, and the lookup
log holds exactly the cached domains, without repetition. -/
structure CEInv (p : DataProcessor) (st : CEState) : Prop where
  nodupValid : st.valid.Nodup
  seenEq : ∀ x, x ∈ st.seen ↔ x ∈ st.valid
  acceptable : ∀ v ∈ st.valid, Acceptable p v
  cachedTrue : ∀ v ∈ st.valid, ∃ a, p.idnaToASCII (emailDomainOf v) = some a ∧
    a ≠ [] ∧ List.lookup a st.domainCache = some true
  cacheSound : ∀ d b, List.lookup d st.domainCache = some b →
    b = hasMXRecord p d
  logNodup : st.mxLog.Nodup
  logCache : ∀ d, d ∈ st.mxLog ↔ (List.lookup d st.domainCache).isSome

/-- A raw payload whose every candidate is junk except the company id. -/
def junkInput : RawEnrichedData :=
  { CompanyID := gs "  acme  ", Emails := [gs "not-an-email", gs ""],
    PrimaryPhone := gs "abc", SecondaryPhones := [gs ""],
    SocialLinks := [(gs "linkedin", [gs "https://example.com/a"])],
    Addresses := [gs "   "], ContactFormURL := gs "" }

/-! ### General list helpers -/

/-- A map whose function fixes every element is the identity. -/
theorem listMapSelf {α : Type} (f : α → α) :
    ∀ l : List α, (∀ a ∈ l, f a = a) → l.map f = l
  | [], _ => rfl
  | a :: l, h => by
      simp only [List.map_cons, List.cons.injEq]
      exact ⟨h a (List.mem_cons_self a l),
        listMapSelf f l (fun b hb => h b (List.mem_cons_of_mem a hb))⟩

/-- `dropWhile` is the identity when no element satisfies the predicate. -/
theorem listDropWhileSelf {α : Type} (p : α → Bool) :
    ∀ l : List α, (∀ a ∈ l, p a = false) → l.dropWhile p = l
  | [], _ => rfl
  | a :: l, h => by
      simp only [List.dropWhile_cons, h a (List.mem_cons_self a l)]
      simp

/-- A successful `find?` returns a member satisfying the predicate. -/
theorem listFindSome {α : Type} (p : α → Bool) :
    ∀ {l : List α} {a : α}, l.find? p = some a → p a = true ∧ a ∈ l
  | [], a, h => by cases h
  | b :: l, a, h => by
      by_cases hb : p b = true
      · simp only [List.find?, hb] at h
        cases h
        exact ⟨hb, List.mem_cons_self _ _⟩
      · simp only [List.find?, Bool.of_not_eq_true hb] at h
        obtain ⟨h1, h2⟩ := listFindSome p h
        exact ⟨h1, List.mem_cons_of_mem _ h2⟩

/-- A permutation of a list with at most one element is that list. -/
theorem permEqOfShort {α : Type} {l l' : List α} (h : l.Perm l')
    (hlen : l.length ≤ 1) : l = l' := by
  match l, hlen with
  | [], _ => exact (List.Perm.eq_nil h.symm).symm
  | [a], _ => exact ((List.perm_singleton).mp h.symm).symm

namespace scoring

/-- `countSocialLinks` is the sum of the per-entry token counts. -/
theorem countSocialLinks_eq_sum (l : List (GoStr × GoStr)) :
    countSocialLinks l =
      (l.map (fun kv =>
        ((((splitSocialValue kv.2).filter (fun t => t ≠ [])).length : Int)))).sum := by
  induction l with
  | nil => rfl
  | cons kv rest ih => simp [countSocialLinks, ih]

/-- `countSocialLinks` is non-negative. -/
theorem countSocialLinks_nonneg (l : List (GoStr × GoStr)) :
    0 ≤ countSocialLinks l := by
  induction l with
  | nil => exact le_refl 0
  | cons kv rest ih =>
      have : (0 : Int) ≤
          ((((splitSocialValue kv.2).filter (fun t => t ≠ [])).length : Int)) :=
        Int.ofNat_nonneg _
      simpa [countSocialLinks] using add_nonneg this ih

/-- The contact-completeness category stays within `[0, 30]`. -/
theorem scoreContactCompleteness_bounds (input : LeadFeatures) :
    0 ≤ scoreContactCompleteness input ∧ scoreContactCompleteness input ≤ 30 := by
  have h := countSocialLinks_nonneg input.Socials
  unfold scoreContactCompleteness goMinInt
  dsimp only
  split_ifs <;> constructor <;> omega

/-- The website-quality category stays within `[0, 30]`. -/
theorem scoreWebsiteQuality_bounds (input : LeadFeatures) :
    0 ≤ scoreWebsiteQuality input ∧ scoreWebsiteQuality input ≤ 30 := by
  unfold scoreWebsiteQuality
  dsimp only
  split_ifs <;> constructor <;> omega

/-- The social-presence category stays within `[0, 20]`. -/
theorem scoreSocialPresence_bounds (input : LeadFeatures) :
    0 ≤ scoreSocialPresence input ∧ scoreSocialPresence input ≤ 20 := by
  unfold scoreSocialPresence
  dsimp only
  split_ifs <;> constructor <;> omega

/-- The business-profile category stays within `[0, 20]`. -/
theorem scoreBusinessProfile_bounds (parseHost : GoStr → Option GoStr)
    (input : LeadFeatures) :
    0 ≤ scoreBusinessProfile parseHost input ∧
      scoreBusinessProfile parseHost input ≤ 20 := by
  unfold scoreBusinessProfile
  dsimp only
  split_ifs <;> constructor <;> omega

/-- C1: for every `LeadFeatures` input, `ComputeScore` returns a
`ScoreResult` whose breakdown holds exactly the four category entries
(`contact_completeness`, `website_quality`, `social_presence`,
`business_profile`), each non-negative and clamped to its cap
(30, 30, 20, 20), and whose `Total` is their sum and lies in `[0, 100]`. -/
theorem computeScore_total_bounds (parseHost : GoStr → Option GoStr)
    (input : LeadFeatures) :
    ∃ c w s b : Int,
      (ComputeScore parseHost input).Breakdown =
        [(gs "contact_completeness", c), (gs "website_quality", w),
         (gs "social_presence", s), (gs "business_profile", b)] ∧
      (ComputeScore parseHost input).Total = c + w + s + b ∧
      0 ≤ c ∧ c ≤ 30 ∧ 0 ≤ w ∧ w ≤ 30 ∧ 0 ≤ s ∧ s ≤ 20 ∧ 0 ≤ b ∧ b ≤ 20 ∧
      0 ≤ (ComputeScore parseHost input).Total ∧
      (ComputeScore parseHost input).Total ≤ 100 := by
  obtain ⟨hc0, hc1⟩ := scoreContactCompleteness_bounds input
  obtain ⟨hw0, hw1⟩ := scoreWebsiteQuality_bounds input
  obtain ⟨hs0, hs1⟩ := scoreSocialPresence_bounds input
  obtain ⟨hb0, hb1⟩ := scoreBusinessProfile_bounds parseHost input
  refine ⟨scoreContactCompleteness input, scoreWebsiteQuality input,
    scoreSocialPresence input, scoreBusinessProfile parseHost input,
    rfl, ?_, hc0, hc1, hw0, hw1, hs0, hs1, hb0, hb1, ?_, ?_⟩
  · simp only [ComputeScore, List.foldl]; omega
  · simp only [ComputeScore, List.foldl]; omega
  · simp only [ComputeScore, List.foldl]; omega

/-- `splitSocialValue` already drops empty tokens, so the loop's
`token != ""` re-filter is the identity. -/
theorem splitSocialValue_filter (v : GoStr) :
    (splitSocialValue v).filter (fun t => t ≠ []) = splitSocialValue v := by
  unfold splitSocialValue
  split
  · rfl
  · rw [List.filter_filter]
    simp

/-- C6 counterexample: on an input whose only social payload is the token
`a` written twice, the code's contact-completeness category is 2, while
the claimed formula with *distinct* tokens gives 1 — the same token
appearing twice contributes two points, not one. -/
theorem contactCompleteness_distinct_counterexample :
    scoreContactCompleteness c6Input = 2 ∧
      min 30 ((if hasValue c6Input.Emails then (10 : Int) else 0) +
        (if hasValue c6Input.Phones then (10 : Int) else 0) +
        min (specDistinctTokenCount c6Input.Socials) 10) = 1 := by
  constructor <;> decide

/-- C6 (amended): the contact-completeness category equals
`min 30 (e + p + min t 10)` where `e`/`p` are the 10-point email and phone
signals and `t` is the number of social-link tokens counted *with
multiplicity* — the sum over all platforms of the number of tokens split
out of each platform's stored value. -/
theorem contactCompleteness_formula (input : LeadFeatures) :
    scoreContactCompleteness input =
      min 30 ((if hasValue input.Emails then (10 : Int) else 0) +
        (if hasValue input.Phones then (10 : Int) else 0) +
        min (countSocialLinks input.Socials) 10) ∧
    countSocialLinks input.Socials =
      (input.Socials.map (fun kv => ((splitSocialValue kv.2).length : Int))).sum := by
  constructor
  · unfold scoreContactCompleteness goMinInt
    dsimp only
    simp only [min_def]
    split_ifs <;> omega
  · have hf : (fun kv : GoStr × GoStr =>
        ((((splitSocialValue kv.2).filter (fun t => t ≠ [])).length : Int))) =
        (fun kv : GoStr × GoStr => (((splitSocialValue kv.2).length : Int))) := by
      funext kv
      rw [splitSocialValue_filter]
    rw [countSocialLinks_eq_sum, hf]

/-- `countSocialLinks` is invariant under re-enumeration of the map. -/
theorem countSocialLinks_perm {l1 l2 : List (GoStr × GoStr)}
    (h : l1.Perm l2) : countSocialLinks l1 = countSocialLinks l2 := by
  rw [countSocialLinks_eq_sum, countSocialLinks_eq_sum]
  exact List.Perm.sum_eq (h.map _)

/-- A list whose elements are pairwise incompatible has at most one
element. -/
theorem lengthLeOneOfPairwiseFalse {α : Type} :
    ∀ {l : List α}, l.Pairwise (fun _ _ => False) → l.length ≤ 1
  | [], _ => by simp
  | [_], _ => by simp
  | _ :: b :: t, h =>
      absurd (List.rel_of_pairwise_cons h (List.mem_cons_self b t)) id

/-- When no two entries share a non-empty normalized key, the
`normalizeSocialKeys` lookup is invariant under re-enumeration. -/
theorem normalizeSocialKeysGet_perm {l1 l2 : List (GoStr × GoStr)}
    (h : l1.Perm l2) (hd : DistinctNormKeys l1) (q : GoStr) :
    normalizeSocialKeysGet l1 q = normalizeSocialKeysGet l2 q := by
  unfold normalizeSocialKeysGet
  have hp : (l1.filter
      (fun kv => normKey kv ≠ [] ∧ normKey kv = q)).Pairwise
      (fun _ _ => False) := by
    refine (hd.filter _).imp_of_mem ?_
    intro a b ha hb hr
    have ha' := List.of_mem_filter ha
    have hb' := List.of_mem_filter hb
    simp only [decide_eq_true_eq] at ha' hb'
    rcases hr with h' | h' | h'
    · exact ha'.1 h'
    · exact hb'.1 h'
    · exact h' (ha'.2.trans hb'.2.symm)
  rw [permEqOfShort (h.filter _) (lengthLeOneOfPairwiseFalse hp)]

/-- C9 (amended): `ComputeScore` is invariant under re-enumeration of the
`Socials` map entries provided no two entries have raw keys normalizing
(trim + lower-case) to the same non-empty key; without that proviso two
enumeration orders of the same entries can score differently. -/
theorem computeScore_perm_invariant (parseHost : GoStr → Option GoStr)
    (emails phones : List GoStr) (s1 s2 : List (GoStr × GoStr))
    (hh hcp hap hcf : Bool) (addr web : GoStr)
    (hperm : s1.Perm s2) (hd : DistinctNormKeys s1) :
    ComputeScore parseHost ⟨emails, phones, s1, hh, hcp, hap, hcf, addr, web⟩ =
      ComputeScore parseHost ⟨emails, phones, s2, hh, hcp, hap, hcf, addr, web⟩ := by
  have hc : countSocialLinks s1 = countSocialLinks s2 :=
    countSocialLinks_perm hperm
  have hg : ∀ q, normalizeSocialKeysGet s1 q = normalizeSocialKeysGet s2 q :=
    normalizeSocialKeysGet_perm hperm hd
  have hlen : s1.length = s2.length := hperm.length_eq
  simp only [ComputeScore, scoreContactCompleteness, scoreWebsiteQuality,
    scoreSocialPresence, scoreBusinessProfile, hasHTTPSF]
  dsimp only
  rw [hc, hlen, hg, hg, hg, hg, hg]

/-- C9 counterexample: the same key/value pairs enumerated in two orders
(raw keys `linkedin` and `LINKEDIN`, which normalize to the same key)
produce different `ComputeScore` totals, so `ComputeScore` is not
deterministic across map-iteration orders as claimed. -/
theorem computeScore_order_counterexample :
    c9SocialsA.Perm c9SocialsB ∧
      (ComputeScore (fun _ => none) (c9Input c9SocialsA)).Total ≠
        (ComputeScore (fun _ => none) (c9Input c9SocialsB)).Total := by
  constructor
  · exact List.Perm.swap _ _ _
  · decide

/-- Witness for the amended C9 theorem at a concrete input with distinct
normalized keys. -/
theorem computeScore_perm_invariant_witness :
    ([((gs "linkedin" : GoStr), (gs "https://linkedin.com/acme" : GoStr)),
      (gs "facebook", gs "https://facebook.com/acme")]).Perm
      [(gs "facebook", gs "https://facebook.com/acme"),
       (gs "linkedin", gs "https://linkedin.com/acme")] ∧
    ComputeScore (fun _ => none)
        (c9Input [(gs "linkedin", gs "https://linkedin.com/acme"),
          (gs "facebook", gs "https://facebook.com/acme")]) =
      ComputeScore (fun _ => none)
        (c9Input [(gs "facebook", gs "https://facebook.com/acme"),
          (gs "linkedin", gs "https://linkedin.com/acme")]) :=
  ⟨List.Perm.swap _ _ _,
    computeScore_perm_invariant (fun _ => none) [] []
      [(gs "linkedin", gs "https://linkedin.com/acme"),
       (gs "facebook", gs "https://facebook.com/acme")]
      [(gs "facebook", gs "https://facebook.com/acme"),
       (gs "linkedin", gs "https://linkedin.com/acme")]
      false false false false [] []
      (List.Perm.swap _ _ _) (by decide)⟩

end scoring

/-! ### Email cleaning: character-level facts -/

/-- A successful `splitFirst` decomposes its input. -/
theorem splitFirst_eq (sep : Char) :
    ∀ {s a b : GoStr}, splitFirst sep s = some (a, b) → s = a ++ sep :: b
  | [], _, _, h => by cases h
  | c :: rest, a, b, h => by
      unfold splitFirst at h
      by_cases hc : c = sep
      · rw [if_pos hc] at h
        cases h
        simp [hc]
      · rw [if_neg hc] at h
        rcases hr : splitFirst sep rest with _ | ⟨a', b'⟩ <;> rw [hr] at h
        · cases h
        · cases h
          have := splitFirst_eq sep hr
          simp [this]

/-- Characters of the local part are lower-case-stable and non-blank. -/
theorem localCharFixed {c : Char} (h : isLocalChar c = true) :
    goCharToLower c = c ∧ goIsSpace c = false := by
  simp only [isLocalChar, Bool.or_eq_true, Bool.and_eq_true,
    decide_eq_true_eq] at h
  constructor
  · unfold goCharToLower
    rw [if_neg]
    omega
  · rw [Bool.eq_false_iff]
    intro htrue
    simp only [goIsSpace, Bool.or_eq_true, decide_eq_true_eq] at htrue
    omega

/-- Characters of the domain part are lower-case-stable and non-blank. -/
theorem domCharFixed {c : Char} (h : isEmailDomChar c = true) :
    goCharToLower c = c ∧ goIsSpace c = false := by
  simp only [isEmailDomChar, Bool.or_eq_true, Bool.and_eq_true,
    decide_eq_true_eq] at h
  constructor
  · unfold goCharToLower
    rw [if_neg]
    omega
  · rw [Bool.eq_false_iff]
    intro htrue
    simp only [goIsSpace, Bool.or_eq_true, decide_eq_true_eq] at htrue
    omega

/-- Every character of a pattern-matching email is lower-case-stable and
non-blank. -/
theorem emailPatternChars {s : GoStr} (h : emailPatternMatch s = true) :
    ∀ c ∈ s, goCharToLower c = c ∧ goIsSpace c = false := by
  unfold emailPatternMatch at h
  rcases hs : splitFirst '@' s with _ | ⟨loc, dom⟩ <;> rw [hs] at h
  · cases h
  · simp only [Bool.and_eq_true, decide_eq_true_eq, List.all_eq_true] at h
    obtain ⟨⟨-, hloc⟩, hdom⟩ := h
    have hdomchars : ∀ c ∈ dom, isEmailDomChar c = true := by
      unfold emailDomainMatch at hdom
      simp only [Bool.and_eq_true, List.all_eq_true] at hdom
      exact hdom.1
    have hsplit := splitFirst_eq '@' hs
    intro c hc
    rw [hsplit] at hc
    rcases List.mem_append.mp hc with hcl | hcd
    · exact localCharFixed (hloc c hcl)
    · rcases List.mem_cons.mp hcd with rfl | hcd'
      · exact ⟨by decide, by decide⟩
      · exact domCharFixed (hdomchars c hcd')

/-- A pattern-matching email is non-empty. -/
theorem emailPattern_ne_nil {s : GoStr} (h : emailPatternMatch s = true) :
    s ≠ [] := by
  intro he
  rw [he] at h
  exact absurd h (by decide)

/-- A pattern-matching email is a fixed point of the trim + lower-case
normalization. -/
theorem emailPattern_normFixed {s : GoStr} (h : emailPatternMatch s = true) :
    goToLower (trimSpace s) = s := by
  have hchars := emailPatternChars h
  have htrim : trimSpace s = s := by
    unfold trimSpace
    rw [listDropWhileSelf _ _ (fun c hc => (hchars c hc).2),
      listDropWhileSelf _ _ (fun c hc => (hchars c (List.mem_reverse.mp hc)).2)]
    exact List.reverse_reverse s
  rw [htrim]
  exact listMapSelf _ _ (fun c hc => (hchars c hc).1)

/-- Association-list lookup at the just-inserted key. -/
theorem lookupConsSelf {k : GoStr} {v : Bool} {es : List (GoStr × Bool)} :
    List.lookup k ((k, v) :: es) = some v := by
  simp [List.lookup]

/-- Association-list lookup through a differing key. -/
theorem lookupConsNe {d k : GoStr} {v : Bool} {es : List (GoStr × Bool)}
    (h : d ≠ k) : List.lookup d ((k, v) :: es) = List.lookup d es := by
  have hbeq : (d == k) = false := beq_eq_false_iff_ne.mpr h
  simp [List.lookup, hbeq]

/-- The invariant holds at the loop's initial state. -/
theorem ceInv_init (p : DataProcessor) : CEInv p ⟨[], [], [], []⟩ := by
  refine ⟨List.nodup_nil, by simp, by simp, by simp, ?_, List.nodup_nil, ?_⟩
  · intro d b h
    cases h
  · intro d
    simp [List.lookup]

/-- The accept phase preserves the invariant when the email passed the
checks and its ASCII domain is cached `true`; it touches neither the
cache nor the lookup log. -/
theorem ceInv_accept (p : DataProcessor) (st : CEState) (email : GoStr)
    (h : CEInv p st) (hpat : emailPatternMatch email = true)
    (hdv : isDomainValid (emailDomainOf email) = true)
    (hca : ∃ a, p.idnaToASCII (emailDomainOf email) = some a ∧ a ≠ [] ∧
      List.lookup a st.domainCache = some true) :
    CEInv p (ceAccept st email) := by
  unfold ceAccept
  by_cases hm : email ∈ st.seen
  · rw [if_pos hm]
    exact h
  · rw [if_neg hm]
    obtain ⟨a, hia, hane, hlt⟩ := hca
    have hmx : hasMXRecord p a = true := (h.cacheSound a true hlt).symm
    have hnv : email ∉ st.valid := fun hv => hm ((h.seenEq email).mpr hv)
    refine ⟨?_, ?_, ?_, ?_, h.cacheSound, h.logNodup, h.logCache⟩
    · rw [List.nodup_append]
      refine ⟨h.nodupValid, List.nodup_singleton email, ?_⟩
      intro x hx hx2
      rw [List.mem_singleton] at hx2
      exact hnv (hx2 ▸ hx)
    · intro x
      simp only [List.mem_cons, List.mem_append, List.mem_singleton,
        h.seenEq x]
      tauto
    · intro v hv
      rcases List.mem_append.mp hv with hv' | hv'
      · exact h.acceptable v hv'
      · rw [List.mem_singleton] at hv'
        subst hv'
        exact ⟨hpat, hdv, a, hia, hane, hmx⟩
    · intro v hv
      rcases List.mem_append.mp hv with hv' | hv'
      · exact h.cachedTrue v hv'
      · rw [List.mem_singleton] at hv'
        subst hv'
        exact ⟨a, hia, hane, hlt⟩

/-- Caching a fresh domain's lookup result preserves the invariant. -/
theorem ceInv_fresh (p : DataProcessor) (st : CEState) (ascii : GoStr)
    (h : CEInv p st) (hl : List.lookup ascii st.domainCache = none) :
    CEInv p { st with
      domainCache := (ascii, hasMXRecord p ascii) :: st.domainCache,
      mxLog := st.mxLog ++ [ascii] } := by
  have hnotlog : ascii ∉ st.mxLog := by
    intro hmem
    have := (h.logCache ascii).mp hmem
    rw [hl] at this
    cases this
  refine ⟨h.nodupValid, h.seenEq, h.acceptable, ?_, ?_, ?_, ?_⟩
  · intro v hv
    obtain ⟨a, hia, hane, hlt⟩ := h.cachedTrue v hv
    have hne : a ≠ ascii := by
      intro he
      rw [he, hl] at hlt
      cases hlt
    exact ⟨a, hia, hane, by rw [lookupConsNe hne]; exact hlt⟩
  · intro d b hdb
    by_cases hd : d = ascii
    · subst hd
      rw [lookupConsSelf] at hdb
      cases hdb
      rfl
    · rw [lookupConsNe hd] at hdb
      exact h.cacheSound d b hdb
  · rw [List.nodup_append]
    refine ⟨h.logNodup, List.nodup_singleton _, ?_⟩
    intro x hx hx2
    rw [List.mem_singleton] at hx2
    exact hnotlog (hx2 ▸ hx)
  · intro d
    by_cases hd : d = ascii
    · subst hd
      simp [lookupConsSelf]
    · rw [lookupConsNe hd]
      simp only [List.mem_append, List.mem_singleton, hd, or_false]
      exact h.logCache d

/-- One iteration of the `cleanEmails` loop preserves the invariant. -/
theorem ceInv_step (p : DataProcessor) (st : CEState) (raw : GoStr)
    (h : CEInv p st) : CEInv p (cleanEmailsStep p st raw) := by
  unfold cleanEmailsStep
  by_cases h1 : goToLower (trimSpace raw) = [] ∨
      ¬ emailPatternMatch (goToLower (trimSpace raw)) = true
  · rw [if_pos h1]
    exact h
  · rw [if_neg h1]
    push_neg at h1
    obtain ⟨-, hpat⟩ := h1
    by_cases h2 : isDomainValid (emailDomainOf (goToLower (trimSpace raw))) = true
    · rw [if_neg (by rw [h2]; simp)]
      rcases hi : p.idnaToASCII (emailDomainOf (goToLower (trimSpace raw)))
        with _ | ascii
      · exact h
      · dsimp only
        by_cases h3 : ascii = []
        · rw [if_pos h3]
          exact h
        · rw [if_neg h3]
          rcases hl : List.lookup ascii st.domainCache with _ | ok <;> dsimp only
          · have hfresh := ceInv_fresh p st ascii h hl
            rcases hmx : hasMXRecord p ascii
            · rw [hmx] at hfresh
              simp only [Bool.false_eq_true, if_false]
              exact hfresh
            · rw [hmx] at hfresh
              simp only [if_true]
              exact ceInv_accept p _ _ hfresh hpat h2
                ⟨ascii, hi, h3, lookupConsSelf⟩
          · rcases ok with _ | _
            · simp only [Bool.false_eq_true, if_false]
              exact h
            · simp only [if_true]
              exact ceInv_accept p st _ h hpat h2 ⟨ascii, hi, h3, hl⟩
    · rw [if_pos h2]
      exact h

/-- The whole `cleanEmails` loop preserves the invariant. -/
theorem ceInv_loop (p : DataProcessor) :
    ∀ (l : List GoStr) (st : CEState), CEInv p st →
      CEInv p (cleanEmailsLoop p l st)
  | [], _, h => h
  | raw :: rest, st, h =>
      ceInv_loop p rest (cleanEmailsStep p st raw) (ceInv_step p st raw h)

/-- Processing a concatenation processes the parts in order. -/
theorem cleanEmailsLoop_append (p : DataProcessor) :
    ∀ (l1 l2 : List GoStr) (st : CEState),
      cleanEmailsLoop p (l1 ++ l2) st =
        cleanEmailsLoop p l2 (cleanEmailsLoop p l1 st)
  | [], _, _ => rfl
  | raw :: l1, l2, st => by
      simp only [List.cons_append, cleanEmailsLoop]
      exact cleanEmailsLoop_append p l1 l2 _

/-- A candidate normalizing to an already-accepted email leaves the state
untouched: all its checks hit the cache, and the `seen` guard drops it. -/
theorem cleanEmailsStep_dup (p : DataProcessor) (st : CEState) (e : GoStr)
    (h : CEInv p st) (hmem : goToLower (trimSpace e) ∈ st.valid) :
    cleanEmailsStep p st e = st := by
  obtain ⟨hpat, hdv, -⟩ := h.acceptable _ hmem
  obtain ⟨a, hia, hane, hlt⟩ := h.cachedTrue _ hmem
  have hne : goToLower (trimSpace e) ≠ [] := emailPattern_ne_nil hpat
  unfold cleanEmailsStep
  rw [if_neg (by push_neg; exact ⟨hne, hpat⟩)]
  rw [if_neg (by rw [hdv]; simp)]
  rw [hia]
  dsimp only
  rw [if_neg hane, hlt]
  dsimp only
  rw [if_pos rfl]
  unfold ceAccept
  rw [if_pos ((h.seenEq _).mpr hmem)]

/-- Feeding the loop a pairwise-distinct list of already-normalized,
fully acceptable, unseen emails appends exactly that list to `valid`. -/
theorem cleanEmailsLoop_clean (p : DataProcessor) :
    ∀ (l : List GoStr) (st : CEState),
      (∀ v ∈ l, Acceptable p v) → l.Nodup →
      (∀ v ∈ l, v ∉ st.seen) →
      (∀ d b, List.lookup d st.domainCache = some b → b = hasMXRecord p d) →
      (cleanEmailsLoop p l st).valid = st.valid ++ l
  | [], st, _, _, _, _ => by
      simp [cleanEmailsLoop]
  | v :: rest, st, hacc, hnd, hseen, hsound => by
      obtain ⟨hpat, hdv, a, hia, hane, hmx⟩ := hacc v (List.mem_cons_self v rest)
      have hfix : goToLower (trimSpace v) = v := emailPattern_normFixed hpat
      have hvseen : v ∉ st.seen := hseen v (List.mem_cons_self v rest)
      have hvrest : v ∉ rest := (List.nodup_cons.mp hnd).1
      have hndrest : rest.Nodup := (List.nodup_cons.mp hnd).2
      have haccrest : ∀ w ∈ rest, Acceptable p w :=
        fun w hw => hacc w (List.mem_cons_of_mem v hw)
      simp only [cleanEmailsLoop]
      have hstep : ∃ cache',
          cleanEmailsStep p st v =
            { seen := v :: st.seen, domainCache := cache',
              valid := st.valid ++ [v],
              mxLog := (cleanEmailsStep p st v).mxLog } ∧
          (∀ d b, List.lookup d cache' = some b → b = hasMXRecord p d) := by
        unfold cleanEmailsStep
        rw [hfix]
        rw [if_neg (by push_neg; exact ⟨emailPattern_ne_nil hpat, hpat⟩)]
        rw [if_neg (by rw [hdv]; simp)]
        rw [hia]
        dsimp only
        rw [if_neg hane]
        rcases hl : List.lookup a st.domainCache with _ | ok <;> try dsimp only
        · rw [hmx]
          try dsimp only
          rw [if_pos rfl]
          unfold ceAccept
          rw [if_neg hvseen]
          refine ⟨(a, true) :: st.domainCache, rfl, ?_⟩
          intro d b hdb
          by_cases hd : d = a
          · subst hd
            rw [lookupConsSelf] at hdb
            cases hdb
            exact hmx.symm
          · rw [lookupConsNe hd] at hdb
            exact hsound d b hdb
        · have hok : ok = true := by
            have := hsound a ok hl
            rw [this, hmx]
          subst hok
          rw [if_pos rfl]
          unfold ceAccept
          rw [if_neg hvseen]
          exact ⟨st.domainCache, rfl, hsound⟩
      obtain ⟨cache', hst, hsound'⟩ := hstep
      rw [hst]
      rw [cleanEmailsLoop_clean p rest _ haccrest hndrest ?_ hsound']
      · simp
      · intro w hw
        simp only [List.mem_cons]
        push_neg
        refine ⟨?_, fun hws => hseen w (List.mem_cons_of_mem v hw) hws⟩
        intro hwv
        exact hvrest (hwv ▸ hw)

/-- C5: `cleanEmails` deduplicates by the normalized email with the first
occurrence winning: the output has pairwise-distinct normalizations,
appending a candidate that normalizes to an already-accepted address
leaves the output unchanged, and the cleaner is idempotent (the MX oracle
being a function, a domain always verifies the same way). -/
theorem cleanEmails_dedup (p : DataProcessor) (emails : List GoStr) :
    ((cleanEmails p emails).map (fun e => goToLower (trimSpace e))).Nodup ∧
    (∀ e, goToLower (trimSpace e) ∈ cleanEmails p emails →
      cleanEmails p (emails ++ [e]) = cleanEmails p emails) ∧
    cleanEmails p (cleanEmails p emails) = cleanEmails p emails := by
  by_cases h0 : emails = []
  · subst h0
    refine ⟨by simp [cleanEmails], ?_, by simp [cleanEmails]⟩
    intro e he
    exact absurd he (by simp [cleanEmails])
  · have hlen : ¬ emails.length = 0 := fun hl => h0 (List.length_eq_zero.mp hl)
    have hout : cleanEmails p emails = (cleanEmailsFull p emails).valid := by
      unfold cleanEmails
      rw [if_neg hlen]
    have hinv : CEInv p (cleanEmailsFull p emails) :=
      ceInv_loop p emails _ (ceInv_init p)
    refine ⟨?_, ?_, ?_⟩
    · rw [hout,
        listMapSelf _ _
          (fun v hv => emailPattern_normFixed (hinv.acceptable v hv).1)]
      exact hinv.nodupValid
    · intro e he
      rw [hout] at he
      have hfull : cleanEmailsFull p (emails ++ [e]) = cleanEmailsFull p emails := by
        unfold cleanEmailsFull
        rw [cleanEmailsLoop_append]
        exact cleanEmailsStep_dup p _ e hinv he
      unfold cleanEmails
      rw [if_neg (by simp), if_neg hlen, hfull]
    · rw [hout]
      by_cases hoe : (cleanEmailsFull p emails).valid = []
      · rw [hoe]
        simp [cleanEmails]
      · unfold cleanEmails
        rw [if_neg (fun hl => hoe (List.length_eq_zero.mp hl))]
        have hseen0 : ∀ v ∈ (cleanEmailsFull p emails).valid,
            v ∉ (⟨[], [], [], []⟩ : CEState).seen := by
          intro v hv
          simp
        have hsound0 : ∀ d b,
            List.lookup d (⟨[], [], [], []⟩ : CEState).domainCache = some b →
              b = hasMXRecord p d := by
          intro d b hdb
          cases hdb
        have hcl := cleanEmailsLoop_clean p ((cleanEmailsFull p emails).valid)
          ⟨[], [], [], []⟩ hinv.acceptable hinv.nodupValid hseen0 hsound0
        unfold cleanEmailsFull at hcl ⊢
        rw [hcl]
        simp

/-- Witness for `cleanEmails_dedup`: appending an upper-case variant of
the accepted `john@example.com` changes nothing, and recleaning the
output returns it unchanged. -/
theorem cleanEmails_dedup_witness :
    cleanEmails emailProcessor
        ([gs "John@Example.com", gs "john@example.com "] ++
          [gs "JOHN@EXAMPLE.COM"]) =
      cleanEmails emailProcessor
        [gs "John@Example.com", gs "john@example.com "] ∧
    cleanEmails emailProcessor
        (cleanEmails emailProcessor
          [gs "John@Example.com", gs "john@example.com "]) =
      cleanEmails emailProcessor
        [gs "John@Example.com", gs "john@example.com "] :=
  ⟨(cleanEmails_dedup emailProcessor
      [gs "John@Example.com", gs "john@example.com "]).2.1
      (gs "JOHN@EXAMPLE.COM") (by decide),
   (cleanEmails_dedup emailProcessor
      [gs "John@Example.com", gs "john@example.com "]).2.2⟩

/-- C10: within one `cleanEmails` invocation the MX lookup log never
repeats an ASCII domain — each distinct domain is resolved at most once —
and every cached pass/fail bit equals the resolver's answer for that
domain, so later candidates reuse exactly that one lookup's result. -/
theorem cleanEmails_mx_once (p : DataProcessor) (emails : List GoStr) :
    (cleanEmailsFull p emails).mxLog.Nodup ∧
    ∀ d b, List.lookup d (cleanEmailsFull p emails).domainCache = some b →
      b = hasMXRecord p d :=
  have hinv : CEInv p (cleanEmailsFull p emails) :=
    ceInv_loop p emails _ (ceInv_init p)
  ⟨hinv.logNodup, hinv.cacheSound⟩

/-- Witness for `cleanEmails_mx_once`: two candidates sharing `x.com` plus
one on `y.net` log each domain once, and the cached bit for `x.com` is the
resolver's answer. -/
theorem cleanEmails_mx_once_witness :
    (cleanEmailsFull emailProcessor
      [gs "a@x.com", gs "b@x.com", gs "c@y.net"]).mxLog.Nodup ∧
    true = hasMXRecord emailProcessor (gs "x.com") :=
  ⟨(cleanEmails_mx_once emailProcessor
      [gs "a@x.com", gs "b@x.com", gs "c@y.net"]).1,
   (cleanEmails_mx_once emailProcessor
      [gs "a@x.com", gs "b@x.com", gs "c@y.net"]).2 (gs "x.com") true
      (by decide)⟩

/-! ### Liveness probe (`urlResolves`) -/

/-- C3: the liveness probe accepts on HEAD 200 with a single request; on
HEAD 405 it issues exactly one GET retry and accepts iff that GET returns
200; and on HEAD 404 it rejects without a GET attempt. -/
theorem urlResolves_probe_paths (p : DataProcessor) (c : HTTPClient)
    (target : GoStr) (hc : p.httpClient = some c)
    (hok : c.newRequestOk target = true) :
    (c.send (gs "HEAD") target = some 200 → urlResolvesT p target = (true, 1)) ∧
    (c.send (gs "HEAD") target = some 405 →
      (urlResolvesT p target).2 = 2 ∧
        (urlResolves p target = true ↔ c.send (gs "GET") target = some 200)) ∧
    (c.send (gs "HEAD") target = some 404 →
      urlResolvesT p target = (false, 1)) := by
  refine ⟨fun h => ?_, fun h => ?_, fun h => ?_⟩
  · simp [urlResolvesT, hc, hok, h]
  · rcases hg : c.send (gs "GET") target with _ | st2
    · exact ⟨by simp [urlResolvesT, hc, hok, h, hg],
        by simp [urlResolves, urlResolvesT, hc, hok, h, hg]⟩
    · refine ⟨by simp [urlResolvesT, hc, hok, h, hg], ?_⟩
      by_cases h2 : st2 = 200 <;>
        simp [urlResolves, urlResolvesT, hc, hok, h, hg, h2]
  · simp [urlResolvesT, hc, hok, h]

/-- Witness for `urlResolves_probe_paths`: a concrete client answering 405
to HEAD and 200 to GET is probed twice and accepted. -/
theorem urlResolves_probe_paths_witness :
    (urlResolvesT head405Processor (gs "https://x")).2 = 2 ∧
      (urlResolves head405Processor (gs "https://x") = true ↔
        head405Client.send (gs "GET") (gs "https://x") = some 200) :=
  (urlResolves_probe_paths head405Processor head405Client (gs "https://x")
    rfl rfl).2.1 (by decide)

/-- C2 counterexample: with a client whose HEAD `Do` call fails with a
transport error and whose GET returns 200, the probe issues a GET retry
(two requests in total) and accepts the candidate — contradicting the
claim that a transport error rejects the candidate with no GET retry. -/
theorem urlResolves_transport_error_counterexample :
    headErrClient.send (gs "HEAD") (gs "https://x") = none ∧
      urlResolves headErrProcessor (gs "https://x") = true ∧
      (urlResolvesT headErrProcessor (gs "https://x")).2 = 2 :=
  ⟨by decide, by decide, by decide⟩

/-- C2 (amended): a HEAD *response* with any status other than 200 and 405
rejects the candidate with no GET attempt, but a HEAD *transport error*
falls through to the GET retry: the probe then issues a second request and
accepts iff that GET returns 200. -/
theorem urlResolves_head_reject (p : DataProcessor) (c : HTTPClient)
    (target : GoStr) (st : Nat) (hc : p.httpClient = some c)
    (hok : c.newRequestOk target = true) :
    (c.send (gs "HEAD") target = some st → st ≠ 200 → st ≠ 405 →
      urlResolvesT p target = (false, 1)) ∧
    (c.send (gs "HEAD") target = none →
      (urlResolvesT p target).2 = 2 ∧
        (urlResolves p target = true ↔ c.send (gs "GET") target = some 200)) := by
  constructor
  · intro h h200 h405
    simp [urlResolvesT, hc, hok, h, h200, h405]
  · intro h
    rcases hg : c.send (gs "GET") target with _ | st2
    · exact ⟨by simp [urlResolvesT, hc, hok, h, hg],
        by simp [urlResolves, urlResolvesT, hc, hok, h, hg]⟩
    · refine ⟨by simp [urlResolvesT, hc, hok, h, hg], ?_⟩
      by_cases h2 : st2 = 200 <;>
        simp [urlResolves, urlResolvesT, hc, hok, h, hg, h2]

/-- Witness for `urlResolves_head_reject`: a HEAD status of 500 rejects
after a single request. -/
theorem urlResolves_head_reject_witness :
    urlResolvesT head500Processor (gs "https://x") = (false, 1) :=
  (urlResolves_head_reject head500Processor head500Client (gs "https://x")
    500 rfl rfl).1 (by decide) (by decide) (by decide)

/-! ### Social-link allow-list (`cleanSocialLink`) -/

/-- C4: an accepted candidate's cleaned host equals, or is a dot-separated
subdomain of, an allow-listed root domain mapped to the requested
platform; and whenever the host check does not resolve to the requested
platform the candidate is rejected with zero liveness-probe requests. -/
theorem cleanSocialLink_allowlist (p : DataProcessor) (platform raw : GoStr) :
    (∀ s n, cleanSocialLinkT p platform raw = (some s, n) →
      ∃ u, sanitizeURL p raw = some u ∧
        ∃ dom, (dom, platform) ∈ allowedSocialDomains ∧
          (cleanHost u.hostname = dom ∨
            ('.' :: dom).isSuffixOf (cleanHost u.hostname) = true)) ∧
    (∀ u, sanitizeURL p raw = some u →
      hostMatchesAllowed u.hostname ≠ some platform →
      cleanSocialLinkT p platform raw = (none, 0)) := by
  constructor
  · intro s n h
    unfold cleanSocialLinkT at h
    rcases hsu : sanitizeURL p raw with _ | u <;> rw [hsu] at h <;>
      dsimp only at h
    · simp at h
    · rcases hm : hostMatchesAllowed u.hostname with _ | hp <;>
        rw [hm] at h <;> dsimp only at h
      · simp at h
      · by_cases hpe : hp = platform
        · subst hpe
          refine ⟨u, rfl, ?_⟩
          unfold hostMatchesAllowed at hm
          dsimp only at hm
          split at hm
          · cases hm
          · rw [Option.map_eq_some'] at hm
            obtain ⟨e, hfind, he2⟩ := hm
            obtain ⟨hpred', hmem⟩ := listFindSome _ hfind
            have hpred := of_decide_eq_true hpred'
            refine ⟨e.1, ?_, ?_⟩
            · rw [← he2]
              simpa using hmem
            · simpa using hpred
        · simp [hpe] at h
  · intro u hu hne
    unfold cleanSocialLinkT
    rw [hu]
    dsimp only
    rcases hm : hostMatchesAllowed u.hostname with _ | hp
    · rfl
    · have hnp : hp ≠ platform := fun he => hne (he ▸ hm)
      simp [hnp]

/-- Witness for `cleanSocialLink_allowlist`: a URL parsing to host
`example.com` is rejected for the `linkedin` slot with zero HTTP requests,
even though the configured client would answer 200. -/
theorem cleanSocialLink_allowlist_witness :
    cleanSocialLinkT exampleHostProcessor (gs "linkedin")
      (gs "https://example.com/x") = (none, 0) :=
  (cleanSocialLink_allowlist exampleHostProcessor (gs "linkedin")
    (gs "https://example.com/x")).2
    ⟨gs "example.com", gs "example.com", gs "https://example.com/x"⟩
    (by decide) (by decide)

/-! ### Address selection -/

/-- Any non-blank candidate scores at least 1. -/
theorem addressScore_pos (a : GoStr) (h : a ≠ []) : 1 ≤ addressScore a := by
  unfold addressScore
  have h1 : 1 ≤ (a.length : Int) := by
    have := List.length_pos.mpr h
    omega
  have h2 : (0 : Int) ≤
      (((List.splitOnP (fun r => r = ',' ∨ r = ';') a).filter
        (fun s => s ≠ [])).length : Int) :=
    Int.ofNat_nonneg _
  omega

/-- Invariants of the `selectBestAddress` scan: the best score never
decreases, the best candidate changes only on a strict improvement, every
non-blank candidate's score is dominated, and when the score improved the
final best is the *first* candidate attaining the final score. -/
theorem selectBestAddressLoop_spec :
    ∀ (l : List GoStr) (best : GoStr) (s : Int),
      s ≤ (selectBestAddressLoop l best s).2 ∧
      ((selectBestAddressLoop l best s).2 = s →
        (selectBestAddressLoop l best s).1 = best) ∧
      (∀ a ∈ candsOf l, addressScore a ≤ (selectBestAddressLoop l best s).2) ∧
      (s < (selectBestAddressLoop l best s).2 →
        (candsOf l).find?
          (fun a => addressScore a == (selectBestAddressLoop l best s).2) =
          some (selectBestAddressLoop l best s).1) ∧
      (s = addressScore best →
        (selectBestAddressLoop l best s).2 =
          addressScore (selectBestAddressLoop l best s).1) ∧
      (candsOf l = [] → selectBestAddressLoop l best s = (best, s))
  | [], best, s => by
      simp [selectBestAddressLoop, candsOf]
  | raw :: rest, best, s => by
      by_cases h0 : trimSpace raw = []
      · have hc : candsOf (raw :: rest) = candsOf rest := by
          simp [candsOf, h0]
        simp only [selectBestAddressLoop, if_pos h0, hc]
        exact selectBestAddressLoop_spec rest best s
      · have hc : candsOf (raw :: rest) = trimSpace raw :: candsOf rest := by
          simp [candsOf, h0]
        by_cases h1 : addressScore (trimSpace raw) > s
        · simp only [selectBestAddressLoop, if_neg h0, if_pos h1, hc]
          obtain ⟨i1, i2, i3, i4, i5, i6⟩ :=
            selectBestAddressLoop_spec rest (trimSpace raw)
              (addressScore (trimSpace raw))
          refine ⟨by omega, fun h => by omega, ?_, ?_, fun _ => i5 rfl, ?_⟩
          · intro a ha
            rcases List.mem_cons.mp ha with rfl | ha'
            · exact i1
            · exact i3 a ha'
          · intro _
            rcases eq_or_lt_of_le i1 with heq | hlt
            · rw [List.find?_cons_of_pos _ (by simp only [beq_iff_eq]; exact heq),
                i2 heq.symm]
            · rw [List.find?_cons_of_neg _
                (fun hco => by simp only [beq_iff_eq] at hco; omega), i4 hlt]
          · intro habs
            cases habs
        · simp only [selectBestAddressLoop, if_neg h0, if_neg h1, hc]
          obtain ⟨i1, i2, i3, i4, i5, i6⟩ := selectBestAddressLoop_spec rest best s
          refine ⟨i1, i2, ?_, ?_, i5, ?_⟩
          · intro a ha
            rcases List.mem_cons.mp ha with rfl | ha'
            · omega
            · exact i3 a ha'
          · intro hlt
            rw [List.find?_cons_of_neg _
              (fun hco => by simp only [beq_iff_eq] at hco; omega), i4 hlt]
          · intro habs
            cases habs

/-- C7: `selectBestAddress` trims candidates, drops blanks, and returns
the earliest candidate attaining the strictly highest
`segments*1000 + length` score ("" when no candidate survives); in
particular the more-segmented address of the claim's example wins. -/
theorem selectBestAddress_spec (addresses : List GoStr) :
    (candsOf addresses = [] → selectBestAddress addresses = []) ∧
    (candsOf addresses ≠ [] →
      (∀ a ∈ candsOf addresses,
        addressScore a ≤ addressScore (selectBestAddress addresses)) ∧
      (candsOf addresses).find?
        (fun a => addressScore a == addressScore (selectBestAddress addresses)) =
        some (selectBestAddress addresses)) ∧
    selectBestAddress [gs "Short", gs "123 Main St, Springfield, US"] =
      gs "123 Main St, Springfield, US" := by
  obtain ⟨i1, i2, i3, i4, i5, i6⟩ := selectBestAddressLoop_spec addresses [] 0
  have h5 := i5 (by decide)
  refine ⟨?_, ?_, by decide⟩
  · intro hc
    exact congrArg Prod.fst (i6 hc)
  · intro hc
    obtain ⟨a0, ha0⟩ := List.exists_mem_of_ne_nil _ hc
    have ha0ne : a0 ≠ [] := by
      have := List.of_mem_filter ha0
      simpa using this
    have hpos : (0 : Int) < (selectBestAddressLoop addresses [] 0).2 :=
      lt_of_lt_of_le (addressScore_pos a0 ha0ne) (i3 a0 ha0)
    constructor
    · intro a ha
      rw [selectBestAddress, ← h5]
      exact i3 a ha
    · rw [selectBestAddress, ← h5]
      exact i4 hpos

/-- Witness for `selectBestAddress_spec` at the claim's example list: the
selected address dominates every candidate's score and is the first
candidate attaining it. -/
theorem selectBestAddress_spec_witness :
    (∀ a ∈ candsOf [gs "Short", gs "123 Main St, Springfield, US"],
      addressScore a ≤
        addressScore
          (selectBestAddress [gs "Short", gs "123 Main St, Springfield, US"])) ∧
    (candsOf [gs "Short", gs "123 Main St, Springfield, US"]).find?
        (fun a => addressScore a ==
          addressScore
            (selectBestAddress [gs "Short", gs "123 Main St, Springfield, US"])) =
      some (selectBestAddress [gs "Short", gs "123 Main St, Springfield, US"]) :=
  (selectBestAddress_spec [gs "Short", gs "123 Main St, Springfield, US"]).2.1
    (by decide)

/-! ### `Process` error behaviour -/

/-- C8: `Process` fails exactly on a company id that is blank after
trimming, returning the zero `CleanedData` and the fixed error; for every
other input it succeeds, whatever the individual candidates look like,
and echoes the trimmed company id. -/
theorem process_error_iff (p : DataProcessor) (input : RawEnrichedData) :
    (trimSpace input.CompanyID = [] →
      Process p input = (CleanedData.zero, some (gs "company_id is required"))) ∧
    (trimSpace input.CompanyID ≠ [] →
      (Process p input).2 = none ∧
        (Process p input).1.CompanyID = trimSpace input.CompanyID) := by
  constructor
  · intro h
    simp [Process, h]
  · intro h
    simp [Process, h]

/-- Witness for `process_error_iff`: a payload whose candidates are all
junk but whose company id is non-blank cleans without error. -/
theorem process_error_iff_witness :
    (Process inertProcessor junkInput).2 = none ∧
      (Process inertProcessor junkInput).1.CompanyID =
        trimSpace junkInput.CompanyID :=
  (process_error_iff inertProcessor junkInput).2 (by decide)

end LeadsGen
